import Mathlib

/-!
Verification development for the financial chart-analysis pipeline.

This file gives a shallow embedding of the pipeline's core components —
the key-data extractor (chart_generator.py), the OHLCV column
normalizer and crypto classifier (data_fetcher.py), the two-tier
TTL cache (smart_cache.py), the cached LLM-analysis stage
(llm_analyzer.py) and the telemetry sink (performance_monitor.py) —
and proves or refutes the specification's claims about them.

Modelling conventions:
* Python strings are Lean `String`s; case conversion and substring
  tests are modelled on code-point lists (ASCII case folding, which is
  exact for all column names, tickers and keys the code manipulates).
* Python floats are modelled as `ℚ` plus an explicit `nan` constructor
  where NaN matters; timestamps, mtimes and TTL seconds are modelled
  as `ℤ` (the claims only compare and subtract them).
* `hashlib.md5(...).hexdigest()` is an external library call, modelled
  as an abstract parameter `md5hex : String → String`; every theorem
  about keys and fingerprints holds for an arbitrary such function.
* Python `dict`s are association lists with key update-in-place and
  insertion-order append, matching CPython semantics.
-/

/-! ### String utilities (code-point level) -/

/-- Code points of a string. -/
def codes (s : String) : List Nat := s.data.map Char.toNat

/-- ASCII lower-casing of one code point (`str.lower`). -/
def lowerCode (n : Nat) : Nat := if 65 ≤ n ∧ n ≤ 90 then n + 32 else n

/-- ASCII upper-casing of one code point (`str.upper`). -/
def upperCode (n : Nat) : Nat := if 97 ≤ n ∧ n ≤ 122 then n - 32 else n

/-- Code points of `s.lower()`. -/
def lowerCodes (s : String) : List Nat := (codes s).map lowerCode

/-- Code points of `s.upper()`. -/
def upperCodes (s : String) : List Nat := (codes s).map upperCode

/-- Boolean infix (substring) test, used to model Python `pat in s`. -/
def isInfixB {α : Type} [BEq α] (pat : List α) : List α → Bool
  | [] => pat.isEmpty
  | a :: l => pat.isPrefixOf (a :: l) || isInfixB pat (l)

/-- Python `pat in col.lower()` for an ASCII-lower-case pattern `pat`. -/
def containsLower (col pat : String) : Bool := isInfixB (codes pat) (lowerCodes col)

/-- Python slicing `s[:n]` on an ASCII string (used for `[:16]` digests). -/
def strTake (s : String) (n : Nat) : String := ⟨s.data.take n⟩

/-! ### Python numbers: `None` / NaN / numeric / string values

`PV` models the values that can sit in the key-data dict: Python
`None`, a float NaN, an ordinary number (int or float, as `ℚ`), or a
string. -/

inductive PV where
  | none
  | nan
  | num (q : ℚ)
  | str (s : String)
deriving DecidableEq

/-- Round-half-to-even on rationals: the rounding used by Python's
`round` builtin and float formatting. -/
def roundHalfEven (q : ℚ) : ℤ :=
  let f := ⌊q⌋
  let r := q - f
  if r < 1 / 2 then f
  else if 1 / 2 < r then f + 1
  else if f % 2 = 0 then f else f + 1

/-- Python `round(q, nd)` for a non-NaN value. -/
def roundTo (nd : Nat) (q : ℚ) : ℚ := (roundHalfEven (q * 10 ^ nd) : ℚ) / 10 ^ nd

/-! ### chart_generator.ChartGenerator._extract_key_data

The extractor reads the last indicator row and the period extremes and
then normalizes: Bollinger fields `round(v, 2)`, StochRSI fields
`int(round(v))`, everything else `round(v, 4)`; `None` and non-numeric
values are skipped.  `round(v, k)` on NaN returns NaN, but
`int(round(v))` on NaN raises `ValueError`, which `extract_key_data`
does not catch — that case is modelled with `Except.error`. -/

structure RawKeyData where
  latest_close : PV
  period_high : PV
  period_low : PV
  bollinger_upper : PV
  bollinger_middle : PV
  bollinger_lower : PV
  stoch_rsi_k : PV
  stoch_rsi_d : PV
deriving DecidableEq

/-- One step of the normalization loop of `_extract_key_data`:
dispatch on the dict key exactly as the Python `if key in (...)`
chain does. -/
def normalizeKeyVal (key : String) (v : PV) : Except String PV :=
  match v with
  | PV.none => Except.ok PV.none
  | PV.str s => Except.ok (PV.str s)
  | PV.nan =>
    if key = "bollinger_upper" ∨ key = "bollinger_middle" ∨ key = "bollinger_lower" then
      Except.ok PV.nan
    else if key = "stoch_rsi_k" ∨ key = "stoch_rsi_d" then
      Except.error "cannot convert float NaN to integer"
    else Except.ok PV.nan
  | PV.num q =>
    if key = "bollinger_upper" ∨ key = "bollinger_middle" ∨ key = "bollinger_lower" then
      Except.ok (PV.num (roundTo 2 q))
    else if key = "stoch_rsi_k" ∨ key = "stoch_rsi_d" then
      Except.ok (PV.num ((roundHalfEven q : ℤ) : ℚ))
    else Except.ok (PV.num (roundTo 4 q))

/-- `ChartGenerator._extract_key_data`, given the values the code reads
off the dataframe (`latest_row.get(...)`, `df['high'].max()`,
`df['low'].min()`).  Fields are processed in the dict's insertion
order; a `ValueError` from `int(round(nan))` aborts the extraction. -/
def extract_key_data (d : RawKeyData) : Except String RawKeyData := do
  let lc ← normalizeKeyVal "latest_close" d.latest_close
  let ph ← normalizeKeyVal "period_high" d.period_high
  let pl ← normalizeKeyVal "period_low" d.period_low
  let bu ← normalizeKeyVal "bollinger_upper" d.bollinger_upper
  let bm ← normalizeKeyVal "bollinger_middle" d.bollinger_middle
  let bl ← normalizeKeyVal "bollinger_lower" d.bollinger_lower
  let sk ← normalizeKeyVal "stoch_rsi_k" d.stoch_rsi_k
  let sd ← normalizeKeyVal "stoch_rsi_d" d.stoch_rsi_d
  pure ⟨lc, ph, pl, bu, bm, bl, sk, sd⟩

/-- Total versions of the three normalizations, used to describe the
result of a successful extraction. -/
def n2 : PV → PV
  | PV.num q => PV.num (roundTo 2 q)
  | v => v

def n4 : PV → PV
  | PV.num q => PV.num (roundTo 4 q)
  | v => v

def nS : PV → PV
  | PV.num q => PV.num ((roundHalfEven q : ℤ) : ℚ)
  | v => v

theorem roundHalfEven_abs_sub_le (q : ℚ) : |(roundHalfEven q : ℚ) - q| ≤ 1 / 2 := by
  have h1 : (⌊q⌋ : ℚ) ≤ q := Int.floor_le q
  have h2 : q < ⌊q⌋ + 1 := Int.lt_floor_add_one q
  simp only [roundHalfEven]
  split_ifs with hlt hgt heven <;> rw [abs_le] <;> push_cast <;> constructor <;> linarith

theorem roundTo_abs_sub_le (nd : Nat) (q : ℚ) : |roundTo nd q - q| ≤ 1 / (2 * 10 ^ nd) := by
  have h10 : (0 : ℚ) < 10 ^ nd := by positivity
  have hrw : roundTo nd q - q
      = ((roundHalfEven (q * 10 ^ nd) : ℚ) - q * 10 ^ nd) / 10 ^ nd := by
    rw [roundTo]
    field_simp
    try ring
  rw [hrw, abs_div, abs_of_pos h10]
  rw [div_le_iff₀ h10]
  have hb := roundHalfEven_abs_sub_le (q * 10 ^ nd)
  calc |(roundHalfEven (q * 10 ^ nd) : ℚ) - q * 10 ^ nd| ≤ 1 / 2 := hb
    _ = 1 / (2 * 10 ^ nd) * 10 ^ nd := by
      field_simp
      try ring

theorem normalize_latest_close (v : PV) :
    normalizeKeyVal "latest_close" v = Except.ok (n4 v) := by
  cases v <;> rfl

theorem normalize_period_high (v : PV) :
    normalizeKeyVal "period_high" v = Except.ok (n4 v) := by
  cases v <;> rfl

theorem normalize_period_low (v : PV) :
    normalizeKeyVal "period_low" v = Except.ok (n4 v) := by
  cases v <;> rfl

theorem normalize_boll_upper (v : PV) :
    normalizeKeyVal "bollinger_upper" v = Except.ok (n2 v) := by
  cases v <;> rfl

theorem normalize_boll_middle (v : PV) :
    normalizeKeyVal "bollinger_middle" v = Except.ok (n2 v) := by
  cases v <;> rfl

theorem normalize_boll_lower (v : PV) :
    normalizeKeyVal "bollinger_lower" v = Except.ok (n2 v) := by
  cases v <;> rfl

theorem normalize_stoch_k (v : PV) (h : v ≠ PV.nan) :
    normalizeKeyVal "stoch_rsi_k" v = Except.ok (nS v) := by
  cases v with
  | nan => exact absurd rfl h
  | none => rfl
  | num q => rfl
  | str s => rfl

theorem normalize_stoch_d (v : PV) (h : v ≠ PV.nan) :
    normalizeKeyVal "stoch_rsi_d" v = Except.ok (nS v) := by
  cases v with
  | nan => exact absurd rfl h
  | none => rfl
  | num q => rfl
  | str s => rfl

/-- Closed form of a successful extraction. -/
theorem extract_key_data_eq (d : RawKeyData)
    (hk : d.stoch_rsi_k ≠ PV.nan) (hd : d.stoch_rsi_d ≠ PV.nan) :
    extract_key_data d = Except.ok
      ⟨n4 d.latest_close, n4 d.period_high, n4 d.period_low,
       n2 d.bollinger_upper, n2 d.bollinger_middle, n2 d.bollinger_lower,
       nS d.stoch_rsi_k, nS d.stoch_rsi_d⟩ := by
  rw [extract_key_data, normalize_latest_close, normalize_period_high, normalize_period_low,
    normalize_boll_upper, normalize_boll_middle, normalize_boll_lower,
    normalize_stoch_k _ hk, normalize_stoch_d _ hd]
  rfl

/-- Claim C1 (amended): for every key-data row whose StochRSI values
are not NaN, extraction succeeds; Bollinger fields are rounded to 2
decimals (within 1/200 of the input, denominator dividing 100),
StochRSI fields to integers (within 1/2), all other numeric fields to
4 decimals (within 1/20000); NaN Bollinger and close/high/low values
propagate as NaN (they are never re-encoded as a string such as
"unavailable"); and a NaN StochRSI value makes the extraction raise
(see the counterexample theorem). -/
theorem extract_key_data_normalizes (d : RawKeyData)
    (hk : d.stoch_rsi_k ≠ PV.nan) (hd : d.stoch_rsi_d ≠ PV.nan) :
    ∃ e, extract_key_data d = Except.ok e
      ∧ (∀ q, d.bollinger_upper = PV.num q →
          e.bollinger_upper = PV.num (roundTo 2 q)
          ∧ (∃ z : ℤ, roundTo 2 q = (z : ℚ) / 100) ∧ |roundTo 2 q - q| ≤ 1 / 200)
      ∧ (∀ q, d.bollinger_middle = PV.num q →
          e.bollinger_middle = PV.num (roundTo 2 q)
          ∧ (∃ z : ℤ, roundTo 2 q = (z : ℚ) / 100) ∧ |roundTo 2 q - q| ≤ 1 / 200)
      ∧ (∀ q, d.bollinger_lower = PV.num q →
          e.bollinger_lower = PV.num (roundTo 2 q)
          ∧ (∃ z : ℤ, roundTo 2 q = (z : ℚ) / 100) ∧ |roundTo 2 q - q| ≤ 1 / 200)
      ∧ (∀ q, d.latest_close = PV.num q →
          e.latest_close = PV.num (roundTo 4 q)
          ∧ (∃ z : ℤ, roundTo 4 q = (z : ℚ) / 10000) ∧ |roundTo 4 q - q| ≤ 1 / 20000)
      ∧ (∀ q, d.period_high = PV.num q →
          e.period_high = PV.num (roundTo 4 q)
          ∧ (∃ z : ℤ, roundTo 4 q = (z : ℚ) / 10000) ∧ |roundTo 4 q - q| ≤ 1 / 20000)
      ∧ (∀ q, d.period_low = PV.num q →
          e.period_low = PV.num (roundTo 4 q)
          ∧ (∃ z : ℤ, roundTo 4 q = (z : ℚ) / 10000) ∧ |roundTo 4 q - q| ≤ 1 / 20000)
      ∧ (∀ q, d.stoch_rsi_k = PV.num q →
          ∃ z : ℤ, e.stoch_rsi_k = PV.num (z : ℚ) ∧ |(z : ℚ) - q| ≤ 1 / 2)
      ∧ (∀ q, d.stoch_rsi_d = PV.num q →
          ∃ z : ℤ, e.stoch_rsi_d = PV.num (z : ℚ) ∧ |(z : ℚ) - q| ≤ 1 / 2)
      ∧ (d.bollinger_upper = PV.nan → e.bollinger_upper = PV.nan)
      ∧ (d.bollinger_middle = PV.nan → e.bollinger_middle = PV.nan)
      ∧ (d.bollinger_lower = PV.nan → e.bollinger_lower = PV.nan)
      ∧ (d.latest_close = PV.nan → e.latest_close = PV.nan) := by
  refine ⟨_, extract_key_data_eq d hk hd, ?_, ?_, ?_, ?_, ?_, ?_, ?_, ?_, ?_, ?_, ?_, ?_⟩
  · intro q hq
    rw [hq]
    refine ⟨rfl, ⟨roundHalfEven (q * 10 ^ 2), by rw [roundTo]; norm_num⟩, ?_⟩
    have := roundTo_abs_sub_le 2 q
    calc |roundTo 2 q - q| ≤ 1 / (2 * 10 ^ 2) := this
      _ = 1 / 200 := by norm_num
  · intro q hq
    rw [hq]
    refine ⟨rfl, ⟨roundHalfEven (q * 10 ^ 2), by rw [roundTo]; norm_num⟩, ?_⟩
    have := roundTo_abs_sub_le 2 q
    calc |roundTo 2 q - q| ≤ 1 / (2 * 10 ^ 2) := this
      _ = 1 / 200 := by norm_num
  · intro q hq
    rw [hq]
    refine ⟨rfl, ⟨roundHalfEven (q * 10 ^ 2), by rw [roundTo]; norm_num⟩, ?_⟩
    have := roundTo_abs_sub_le 2 q
    calc |roundTo 2 q - q| ≤ 1 / (2 * 10 ^ 2) := this
      _ = 1 / 200 := by norm_num
  · intro q hq
    rw [hq]
    refine ⟨rfl, ⟨roundHalfEven (q * 10 ^ 4), by rw [roundTo]; norm_num⟩, ?_⟩
    have := roundTo_abs_sub_le 4 q
    calc |roundTo 4 q - q| ≤ 1 / (2 * 10 ^ 4) := this
      _ = 1 / 20000 := by norm_num
  · intro q hq
    rw [hq]
    refine ⟨rfl, ⟨roundHalfEven (q * 10 ^ 4), by rw [roundTo]; norm_num⟩, ?_⟩
    have := roundTo_abs_sub_le 4 q
    calc |roundTo 4 q - q| ≤ 1 / (2 * 10 ^ 4) := this
      _ = 1 / 20000 := by norm_num
  · intro q hq
    rw [hq]
    refine ⟨rfl, ⟨roundHalfEven (q * 10 ^ 4), by rw [roundTo]; norm_num⟩, ?_⟩
    have := roundTo_abs_sub_le 4 q
    calc |roundTo 4 q - q| ≤ 1 / (2 * 10 ^ 4) := this
      _ = 1 / 20000 := by norm_num
  · intro q hq
    rw [hq]
    exact ⟨roundHalfEven q, rfl, roundHalfEven_abs_sub_le q⟩
  · intro q hq
    rw [hq]
    exact ⟨roundHalfEven q, rfl, roundHalfEven_abs_sub_le q⟩
  · intro hq
    rw [hq]
    rfl
  · intro hq
    rw [hq]
    rfl
  · intro hq
    rw [hq]
    rfl
  · intro hq
    rw [hq]
    rfl

/-- Claim C1 counterexample: with a NaN StochRSI value at the latest
row (indicator warm-up), extraction fails with the `ValueError` from
`int(round(nan))`, and with a NaN Bollinger value the snapshot carries
NaN through unchanged — nothing is ever encoded as "unavailable". -/
theorem extract_key_data_nan_counterexample :
    extract_key_data ⟨PV.none, PV.none, PV.none, PV.nan, PV.nan, PV.nan, PV.nan, PV.nan⟩
      = Except.error "cannot convert float NaN to integer"
    ∧ extract_key_data ⟨PV.none, PV.none, PV.none, PV.nan, PV.nan, PV.nan, PV.none, PV.none⟩
      = Except.ok ⟨PV.none, PV.none, PV.none, PV.nan, PV.nan, PV.nan, PV.none, PV.none⟩
    ∧ PV.nan ≠ PV.str "unavailable" := by
  refine ⟨rfl, rfl, by decide⟩

/-- Witness for C1: the amended theorem applied at a concrete row. -/
theorem extract_key_data_normalizes_witness :
    ∃ e, extract_key_data ⟨PV.nan, PV.none, PV.none, PV.nan, PV.nan, PV.nan,
        PV.num 71, PV.num 64⟩ = Except.ok e
      ∧ (∀ q, PV.nan = PV.num q →
          e.bollinger_upper = PV.num (roundTo 2 q)
          ∧ (∃ z : ℤ, roundTo 2 q = (z : ℚ) / 100) ∧ |roundTo 2 q - q| ≤ 1 / 200)
      ∧ (∀ q, PV.nan = PV.num q →
          e.bollinger_middle = PV.num (roundTo 2 q)
          ∧ (∃ z : ℤ, roundTo 2 q = (z : ℚ) / 100) ∧ |roundTo 2 q - q| ≤ 1 / 200)
      ∧ (∀ q, PV.nan = PV.num q →
          e.bollinger_lower = PV.num (roundTo 2 q)
          ∧ (∃ z : ℤ, roundTo 2 q = (z : ℚ) / 100) ∧ |roundTo 2 q - q| ≤ 1 / 200)
      ∧ (∀ q, PV.nan = PV.num q →
          e.latest_close = PV.num (roundTo 4 q)
          ∧ (∃ z : ℤ, roundTo 4 q = (z : ℚ) / 10000) ∧ |roundTo 4 q - q| ≤ 1 / 20000)
      ∧ (∀ q, PV.none = PV.num q →
          e.period_high = PV.num (roundTo 4 q)
          ∧ (∃ z : ℤ, roundTo 4 q = (z : ℚ) / 10000) ∧ |roundTo 4 q - q| ≤ 1 / 20000)
      ∧ (∀ q, PV.none = PV.num q →
          e.period_low = PV.num (roundTo 4 q)
          ∧ (∃ z : ℤ, roundTo 4 q = (z : ℚ) / 10000) ∧ |roundTo 4 q - q| ≤ 1 / 20000)
      ∧ (∀ q, PV.num 71 = PV.num q →
          ∃ z : ℤ, e.stoch_rsi_k = PV.num (z : ℚ) ∧ |(z : ℚ) - q| ≤ 1 / 2)
      ∧ (∀ q, PV.num 64 = PV.num q →
          ∃ z : ℤ, e.stoch_rsi_d = PV.num (z : ℚ) ∧ |(z : ℚ) - q| ≤ 1 / 2)
      ∧ (PV.nan = PV.nan → e.bollinger_upper = PV.nan)
      ∧ (PV.nan = PV.nan → e.bollinger_middle = PV.nan)
      ∧ (PV.nan = PV.nan → e.bollinger_lower = PV.nan)
      ∧ (PV.nan = PV.nan → e.latest_close = PV.nan) :=
  extract_key_data_normalizes
    ⟨PV.nan, PV.none, PV.none, PV.nan, PV.nan, PV.nan, PV.num 71, PV.num 64⟩
    (by decide) (by decide)

/-! ### data_fetcher.get_ohlcv_data — crypto/equity classification

The classification (lines 167-172) sets `is_crypto` iff the upper-cased
base symbol (ticker upper-cased, `-` replaced by `/`, split at `/`,
first component) is one of eleven known crypto bases, or the
upper-cased ticker contains one of `/`, `-USD`, `-USDT`, `-BTC`,
`-ETH`.  The function has no `exchange` parameter at all. -/

def common_crypto_bases : List String :=
  ["BTC", "ETH", "ADA", "SOL", "XRP", "DOGE", "LTC", "BCH", "LINK", "DOT", "UNI"]

def crypto_markers : List String := ["/", "-USD", "-USDT", "-BTC", "-ETH"]

/-- `ticker_symbol.upper().replace('-', '/').split('/')[0]` as code points. -/
def base_symbol_candidate (ticker : String) : List Nat :=
  ((upperCodes ticker).map (fun n => if n = 45 then 47 else n)).takeWhile (fun n => n ≠ 47)

/-- The `is_crypto` flag computed by `get_ohlcv_data`. -/
def is_crypto (ticker : String) : Bool :=
  (common_crypto_bases.map codes).contains (base_symbol_candidate ticker)
    || crypto_markers.any (fun m => isInfixB (codes m) (upperCodes ticker))

/-- Claim C3 as stated by the spec: crypto iff the exchange is a known
crypto venue or the ticker contains a `-` character (45 is the code
point of `-`). -/
def is_crypto_claimed (crypto_venues : List String) (exchange : Option String)
    (ticker : String) : Bool :=
  (match exchange with
   | Option.some e => crypto_venues.contains e
   | Option.none => false)
    || (codes ticker).contains 45

theorem isInfixB_iff {α : Type} [BEq α] [LawfulBEq α] (pat : List α) :
    ∀ l : List α, isInfixB pat l = true ↔ pat <:+: l := by
  intro l
  induction l with
  | nil =>
    simp only [isInfixB, List.isEmpty_iff]
    constructor
    · intro h
      rw [h]
    · intro h
      exact List.eq_nil_of_infix_nil h
  | cons a t ih =>
    simp only [isInfixB, Bool.or_eq_true, List.isPrefixOf_iff_prefix, ih,
      List.infix_cons_iff]

/-- Claim C3 (amended): `get_ohlcv_data` classifies a ticker as crypto
iff its upper-cased base symbol (before the first `/` after mapping
`-` to `/`) is one of the eleven known crypto bases, or the
upper-cased ticker contains one of the substrings `/`, `-USD`,
`-USDT`, `-BTC`, `-ETH`.  No `exchange` argument exists, and a bare
`-` does not make a ticker crypto. -/
theorem is_crypto_characterization (t : String) :
    is_crypto t = true ↔
      (base_symbol_candidate t ∈ common_crypto_bases.map codes
        ∨ ∃ m ∈ crypto_markers, codes m <:+: upperCodes t) := by
  simp only [is_crypto, Bool.or_eq_true, List.contains, List.elem_iff,
    List.any_eq_true, isInfixB_iff]

/-- Claim C3 counterexample: the ticker `A-B` contains `-` (and no
exchange is given), yet the code classifies it as equity; conversely
the bare ticker `BTC` contains no `-`, yet the code classifies it as
crypto.  So crypto-ness is not `exchange ∈ venues ∨ '-' ∈ ticker`. -/
theorem is_crypto_counterexample :
    is_crypto_claimed [] Option.none "A-B" = true
    ∧ is_crypto "A-B" = false
    ∧ is_crypto_claimed [] Option.none "BTC" = false
    ∧ is_crypto "BTC" = true := by decide

/-! ### data_fetcher.get_ohlcv_data — column normalization

Lines 274-301: a rename map is built left-to-right over the fetched
table's column names; recognized price/volume columns are renamed to
canonical lower-case names; then `open/high/low/close` are required
(first missing one fails the operation) and a missing `volume` column
is synthesized. -/

/-- One iteration of the `for col in raw_df.columns` loop that builds
`rename_map_std`. -/
def update_rename_map (m : List (String × String)) (col : String) : List (String × String) :=
  if containsLower col "open" then m ++ [(col, "open")]
  else if containsLower col "high" then m ++ [(col, "high")]
  else if containsLower col "low" then m ++ [(col, "low")]
  else if containsLower col "close" && !containsLower col "adj" then m ++ [(col, "close")]
  else if containsLower col "adj close" then
    (if (m.map Prod.snd).contains "close" then m else m ++ [(col, "close")])
  else if containsLower col "volume" then m ++ [(col, "volume")]
  else m

/-- The full `rename_map_std` dict for a list of column names. -/
def rename_map_std (cols : List String) : List (String × String) :=
  cols.foldl update_rename_map []

/-- `raw_df.rename(columns=rename_map_std)`: each column is replaced
by its image under the map when present. -/
def renamed_columns (cols : List String) : List String :=
  cols.map (fun c => ((rename_map_std cols).lookup c).getD c)

/-- The `for col in required_cols` check: the first missing OHLC column
fails the operation; a missing volume column is synthesized. -/
def ensure_required (cols : List String) : Except String (List String) :=
  if !cols.contains "open" then Except.error "open"
  else if !cols.contains "high" then Except.error "high"
  else if !cols.contains "low" then Except.error "low"
  else if !cols.contains "close" then Except.error "close"
  else if !cols.contains "volume" then Except.ok (cols ++ ["volume"])
  else Except.ok cols

/-- A column name that the loop renames to `close` through the plain
branch (`'close' in cl and 'adj' not in cl`, no earlier branch firing). -/
def isPlainCloseCol (col : String) : Bool :=
  !containsLower col "open" && !containsLower col "high" && !containsLower col "low"
    && (containsLower col "close" && !containsLower col "adj")

/-- A column name that reaches the `'adj close' in cl` branch. -/
def isAdjCloseCol (col : String) : Bool :=
  !containsLower col "open" && !containsLower col "high" && !containsLower col "low"
    && !(containsLower col "close" && !containsLower col "adj")
    && containsLower col "adj close"

/-- A column that can map to `close` (plain or adjusted). -/
def isCloseIsh (col : String) : Bool := isPlainCloseCol col || isAdjCloseCol col

/-- Whether the partially built rename map already has `close` among
its values (`'close' in rename_map_std.values()`). -/
def hasCloseVal (m : List (String × String)) : Bool := (m.map Prod.snd).contains "close"

theorem update_rename_map_plain (m : List (String × String)) (col : String)
    (h : isPlainCloseCol col = true) :
    update_rename_map m col = m ++ [(col, "close")] := by
  simp only [isPlainCloseCol, Bool.and_eq_true, Bool.not_eq_true'] at h
  obtain ⟨⟨⟨h1, h2⟩, h3⟩, h4, h5⟩ := h
  simp [update_rename_map, h1, h2, h3, h4, h5]

theorem update_rename_map_adj (m : List (String × String)) (col : String)
    (h : isAdjCloseCol col = true) :
    update_rename_map m col
      = (if hasCloseVal m then m else m ++ [(col, "close")]) := by
  simp only [isAdjCloseCol, Bool.and_eq_true, Bool.not_eq_true'] at h
  obtain ⟨⟨⟨⟨h1, h2⟩, h3⟩, h4⟩, h5⟩ := h
  simp [update_rename_map, hasCloseVal, h1, h2, h3, h4, h5]

theorem update_rename_map_growth (m : List (String × String)) (col : String) :
    ∃ δ, update_rename_map m col = m ++ δ ∧ ∀ p ∈ δ, p.1 = col := by
  unfold update_rename_map
  split_ifs with h1 h2 h3 h4 h5 h6 h7
  · exact ⟨[(col, "open")], rfl, by simp⟩
  · exact ⟨[(col, "high")], rfl, by simp⟩
  · exact ⟨[(col, "low")], rfl, by simp⟩
  · exact ⟨[(col, "close")], rfl, by simp⟩
  · exact ⟨[], (List.append_nil m).symm, by simp⟩
  · exact ⟨[(col, "close")], rfl, by simp⟩
  · exact ⟨[(col, "volume")], rfl, by simp⟩
  · exact ⟨[], (List.append_nil m).symm, by simp⟩

theorem hasCloseVal_append_iff (m δ : List (String × String)) :
    hasCloseVal (m ++ δ) = (hasCloseVal m || hasCloseVal δ) := by
  simp only [hasCloseVal, List.map_append]
  by_cases hm : "close" ∈ m.map Prod.snd <;>
    by_cases hd : "close" ∈ δ.map Prod.snd <;>
      simp [List.contains, List.elem_iff, List.mem_append, hm, hd]

theorem update_rename_map_hasCloseVal_mono (m : List (String × String)) (col : String)
    (h : hasCloseVal m = true) : hasCloseVal (update_rename_map m col) = true := by
  obtain ⟨δ, hδ, -⟩ := update_rename_map_growth m col
  rw [hδ, hasCloseVal_append_iff, h, Bool.true_or]

theorem update_rename_map_not_closeish (m : List (String × String)) (col : String)
    (h : isCloseIsh col = false) :
    hasCloseVal (update_rename_map m col) = hasCloseVal m := by
  have hni : ∀ v : String, v ≠ "close" →
      hasCloseVal (m ++ [(col, v)]) = hasCloseVal m := by
    intro v hv
    rw [hasCloseVal_append_iff]
    have hz : hasCloseVal [(col, v)] = false := by
      simp [hasCloseVal, List.contains, Ne.symm hv]
    rw [hz, Bool.or_false]
  have hp : isPlainCloseCol col = false := by
    revert h
    unfold isCloseIsh
    cases isPlainCloseCol col <;> simp
  have ha : isAdjCloseCol col = false := by
    revert h
    unfold isCloseIsh
    cases isAdjCloseCol col <;> simp
  unfold update_rename_map
  split_ifs with h1 h2 h3 h4 h5 h6 h7
  · exact hni "open" (by decide)
  · exact hni "high" (by decide)
  · exact hni "low" (by decide)
  · exfalso
    simp only [Bool.not_eq_true] at h1 h2 h3
    simp [isPlainCloseCol, h1, h2, h3, h4] at hp
  · rfl
  · exfalso
    simp only [Bool.not_eq_true] at h1 h2 h3 h4
    simp [isAdjCloseCol, h1, h2, h3, h4, h5] at ha
  · exact hni "volume" (by decide)
  · rfl

theorem rename_fold_growth (cols : List String) :
    ∀ m, ∃ δ, cols.foldl update_rename_map m = m ++ δ ∧ ∀ p ∈ δ, p.1 ∈ cols := by
  induction cols with
  | nil => exact fun m => ⟨[], by simp, by simp⟩
  | cons c rest ih =>
    intro m
    obtain ⟨δ1, hδ1, hk1⟩ := update_rename_map_growth m c
    obtain ⟨δ2, hδ2, hk2⟩ := ih (update_rename_map m c)
    refine ⟨δ1 ++ δ2, ?_, ?_⟩
    · rw [List.foldl_cons, hδ2, hδ1, List.append_assoc]
    · intro p hp
      rcases List.mem_append.mp hp with hmem | hmem
      · rw [hk1 p hmem]
        exact List.mem_cons_self c rest
      · exact List.mem_cons_of_mem c (hk2 p hmem)

theorem rename_fold_hasCloseVal_mono (cols : List String) :
    ∀ m, hasCloseVal m = true → hasCloseVal (cols.foldl update_rename_map m) = true := by
  induction cols with
  | nil => exact fun m h => h
  | cons c rest ih =>
    intro m h
    exact ih (update_rename_map m c) (update_rename_map_hasCloseVal_mono m c h)

theorem rename_fold_no_closeish (cols : List String)
    (h : ∀ c ∈ cols, isCloseIsh c = false) :
    ∀ m, hasCloseVal (cols.foldl update_rename_map m) = hasCloseVal m := by
  induction cols with
  | nil => exact fun m => rfl
  | cons c rest ih =>
    intro m
    rw [List.foldl_cons,
      ih (fun x hx => h x (List.mem_cons_of_mem c hx)) (update_rename_map m c),
      update_rename_map_not_closeish m c (h c (List.mem_cons_self c rest))]

theorem rename_fold_plain_mem (cols : List String) (p : String) (hp : p ∈ cols)
    (hplain : isPlainCloseCol p = true) :
    ∀ m, hasCloseVal (cols.foldl update_rename_map m) = true := by
  induction cols with
  | nil => exact absurd hp (List.not_mem_nil p)
  | cons c rest ih =>
    intro m
    rcases List.mem_cons.mp hp with hpc | hmem
    · rw [List.foldl_cons]
      apply rename_fold_hasCloseVal_mono
      rw [← hpc, update_rename_map_plain m p hplain, hasCloseVal_append_iff]
      have hone : hasCloseVal [(p, "close")] = true := by
        simp [hasCloseVal, List.contains]
      rw [hone, Bool.or_true]
    · rw [List.foldl_cons]
      exact ih hmem (update_rename_map m c)

theorem lookup_append_of_not_mem {β : Type} (l1 l2 : List (String × β)) (k : String)
    (h : k ∉ l1.map Prod.fst) : (l1 ++ l2).lookup k = l2.lookup k := by
  induction l1 with
  | nil => rfl
  | cons a t ih =>
    obtain ⟨a1, a2⟩ := a
    simp only [List.map_cons, List.mem_cons] at h
    push_neg at h
    obtain ⟨h1, h2⟩ := h
    rw [List.cons_append, List.lookup_cons]
    simp only [beq_eq_false_iff_ne.mpr h1]
    exact ih h2

theorem lookup_eq_none_of_not_mem {β : Type} (l : List (String × β)) (k : String)
    (h : k ∉ l.map Prod.fst) : l.lookup k = Option.none := by
  induction l with
  | nil => rfl
  | cons a t ih =>
    obtain ⟨a1, a2⟩ := a
    simp only [List.map_cons, List.mem_cons] at h
    push_neg at h
    obtain ⟨h1, h2⟩ := h
    rw [List.lookup_cons]
    simp only [beq_eq_false_iff_ne.mpr h1]
    exact ih h2

theorem not_mem_keys_of_sub {β : Type} (M : List (String × β)) (l : List String)
    (hsub : ∀ q ∈ M, q.1 ∈ l) (x : String) (hx : x ∉ l) : x ∉ M.map Prod.fst := by
  intro hmem
  obtain ⟨pr, hpr, hfst⟩ := List.mem_map.mp hmem
  exact hx (hfst ▸ hsub pr hpr)

/-- Claim C2 (amended): over the fetched table's columns, (a) a column
reaching the plain-close branch is always renamed `close`; (b) a
column reaching the adj-close branch is renamed `close` exactly when
no close-candidate column precedes it — so plain `close` wins only
when it appears before `adj close`, and when `adj close` appears first
BOTH columns are renamed `close` (see the counterexample); (c) after
renaming, a missing `open`/`high`/`low`/`close` column fails the
operation, and a missing `volume` column is synthesized. -/
theorem rename_and_require_columns :
    (∀ cols : List String, cols.Nodup → ∀ l1 p l2, cols = l1 ++ p :: l2 →
      isPlainCloseCol p = true → (rename_map_std cols).lookup p = some "close")
    ∧ (∀ cols : List String, cols.Nodup → ∀ l1 a l2, cols = l1 ++ a :: l2 →
      isAdjCloseCol a = true → (∀ c ∈ l1, isCloseIsh c = false) →
      (rename_map_std cols).lookup a = some "close")
    ∧ (∀ cols : List String, cols.Nodup → ∀ l1 a l2, cols = l1 ++ a :: l2 →
      isAdjCloseCol a = true → (∃ p ∈ l1, isPlainCloseCol p = true) →
      (rename_map_std cols).lookup a = Option.none)
    ∧ (∀ cols : List String,
      (∃ msg, ensure_required cols = Except.error msg)
        ↔ (cols.contains "open" = false ∨ cols.contains "high" = false
            ∨ cols.contains "low" = false ∨ cols.contains "close" = false))
    ∧ (∀ cols : List String, cols.contains "open" = true → cols.contains "high" = true →
      cols.contains "low" = true → cols.contains "close" = true →
      cols.contains "volume" = false →
      ensure_required cols = Except.ok (cols ++ ["volume"]))
    ∧ (∀ cols : List String, cols.contains "open" = true → cols.contains "high" = true →
      cols.contains "low" = true → cols.contains "close" = true →
      cols.contains "volume" = true → ensure_required cols = Except.ok cols) := by
  refine ⟨?_, ?_, ?_, ?_, ?_, ?_⟩
  · intro cols hnd l1 p l2 hco hplain
    subst hco
    have hpn1 : p ∉ l1 := by
      rw [List.nodup_append] at hnd
      intro hp
      exact hnd.2.2 hp (List.mem_cons_self p l2)
    have hpn2 : p ∉ l2 := by
      rw [List.nodup_append, List.nodup_cons] at hnd
      exact hnd.2.1.1
    obtain ⟨δ1, hδ1, hk1⟩ := rename_fold_growth l1 []
    obtain ⟨δ2, hδ2, hk2⟩ :=
      rename_fold_growth l2 (l1.foldl update_rename_map [] ++ [(p, "close")])
    rw [rename_map_std, List.foldl_append, List.foldl_cons,
      update_rename_map_plain _ p hplain, hδ2, List.append_assoc]
    rw [lookup_append_of_not_mem]
    · simp [List.lookup_cons]
    · rw [hδ1, List.nil_append]
      exact not_mem_keys_of_sub δ1 l1 hk1 p hpn1
  · intro cols hnd l1 a l2 hco hadj hnone
    subst hco
    have hpn1 : a ∉ l1 := by
      rw [List.nodup_append] at hnd
      intro hp
      exact hnd.2.2 hp (List.mem_cons_self a l2)
    have hcv : hasCloseVal (l1.foldl update_rename_map []) = false :=
      rename_fold_no_closeish l1 hnone []
    obtain ⟨δ1, hδ1, hk1⟩ := rename_fold_growth l1 []
    obtain ⟨δ2, hδ2, hk2⟩ :=
      rename_fold_growth l2 (l1.foldl update_rename_map [] ++ [(a, "close")])
    rw [rename_map_std, List.foldl_append, List.foldl_cons,
      update_rename_map_adj _ a hadj, hcv]
    simp only [Bool.false_eq_true, if_false]
    rw [hδ2, List.append_assoc]
    rw [lookup_append_of_not_mem]
    · simp [List.lookup_cons]
    · rw [hδ1, List.nil_append]
      exact not_mem_keys_of_sub δ1 l1 hk1 a hpn1
  · intro cols hnd l1 a l2 hco hadj hplain
    subst hco
    obtain ⟨p, hp, hpl⟩ := hplain
    have hpn1 : a ∉ l1 := by
      rw [List.nodup_append] at hnd
      intro hp2
      exact hnd.2.2 hp2 (List.mem_cons_self a l2)
    have hpn2 : a ∉ l2 := by
      rw [List.nodup_append, List.nodup_cons] at hnd
      exact hnd.2.1.1
    have hcv : hasCloseVal (l1.foldl update_rename_map []) = true :=
      rename_fold_plain_mem l1 p hp hpl []
    obtain ⟨δ1, hδ1, hk1⟩ := rename_fold_growth l1 []
    obtain ⟨δ2, hδ2, hk2⟩ := rename_fold_growth l2 (l1.foldl update_rename_map [])
    rw [rename_map_std, List.foldl_append, List.foldl_cons,
      update_rename_map_adj _ a hadj, hcv]
    simp only [if_true]
    rw [hδ2]
    apply lookup_eq_none_of_not_mem
    rw [List.map_append]
    intro hmem
    rcases List.mem_append.mp hmem with hmem1 | hmem2
    · rw [hδ1, List.nil_append] at hmem1
      exact not_mem_keys_of_sub δ1 l1 hk1 a hpn1 hmem1
    · exact not_mem_keys_of_sub δ2 l2 hk2 a hpn2 hmem2
  · intro cols
    cases h1 : cols.contains "open" <;> cases h2 : cols.contains "high" <;>
      cases h3 : cols.contains "low" <;> cases h4 : cols.contains "close" <;>
        cases h5 : cols.contains "volume" <;>
          simp only [List.elem_eq_mem, decide_eq_true_eq, decide_eq_false_iff_not]
            at h1 h2 h3 h4 h5 <;>
          simp [ensure_required, h1, h2, h3, h4, h5]
  · intro cols h1 h2 h3 h4 h5
    simp only [List.elem_eq_mem, decide_eq_true_eq, decide_eq_false_iff_not]
      at h1 h2 h3 h4 h5
    simp [ensure_required, h1, h2, h3, h4, h5]
  · intro cols h1 h2 h3 h4 h5
    simp only [List.elem_eq_mem, decide_eq_true_eq, decide_eq_false_iff_not]
      at h1 h2 h3 h4 h5
    simp [ensure_required, h1, h2, h3, h4, h5]

/-- Claim C2 counterexample: when the upstream table's `Adj Close`
column precedes its `Close` column, BOTH are renamed to `close`
(duplicate columns; downstream numeric coercion then fails), so plain
`close` does not win; and an unrecognized column (`Foo`) keeps its
original capitalization, so column names are not lower-cased across
the board. -/
theorem rename_close_counterexample :
    (rename_map_std ["Adj Close", "Close"]).lookup "Adj Close" = some "close"
    ∧ (rename_map_std ["Adj Close", "Close"]).lookup "Close" = some "close"
    ∧ renamed_columns ["Adj Close", "Close"] = ["close", "close"]
    ∧ renamed_columns ["Foo"] = ["Foo"] := by decide

/-- Witness for C2: the amended theorem applied to a concrete column
list, in both orders of `Close` and `Adj Close`, plus the
required-column cases. -/
theorem rename_and_require_columns_witness :
    (rename_map_std ["Open", "Close", "Adj Close"]).lookup "Close" = some "close"
    ∧ (rename_map_std ["Open", "Close", "Adj Close"]).lookup "Adj Close" = Option.none
    ∧ (rename_map_std ["Adj Close", "Volume"]).lookup "Adj Close" = some "close"
    ∧ (∃ msg, ensure_required ["open", "high", "low"] = Except.error msg)
    ∧ ensure_required ["open", "high", "low", "close"]
        = Except.ok (["open", "high", "low", "close"] ++ ["volume"])
    ∧ ensure_required ["open", "high", "low", "close", "volume"]
        = Except.ok ["open", "high", "low", "close", "volume"] := by
  refine ⟨?_, ?_, ?_, ?_, ?_, ?_⟩
  · exact rename_and_require_columns.1 ["Open", "Close", "Adj Close"] (by decide)
      ["Open"] "Close" ["Adj Close"] rfl (by decide)
  · exact rename_and_require_columns.2.2.1 ["Open", "Close", "Adj Close"] (by decide)
      ["Open", "Close"] "Adj Close" [] rfl (by decide) ⟨"Close", by decide, by decide⟩
  · exact rename_and_require_columns.2.1 ["Adj Close", "Volume"] (by decide)
      [] "Adj Close" ["Volume"] rfl (by decide) (by decide)
  · exact (rename_and_require_columns.2.2.2.1 ["open", "high", "low"]).mpr
      (by decide)
  · exact rename_and_require_columns.2.2.2.2.1 ["open", "high", "low", "close"]
      (by decide) (by decide) (by decide) (by decide) (by decide)
  · exact rename_and_require_columns.2.2.2.2.2 ["open", "high", "low", "close", "volume"]
      (by decide) (by decide) (by decide) (by decide) (by decide)

/-! ### smart_cache.SmartCache._get_dataframe_hash (the fingerprint)

`f"{x:.4f}"` formatting and the dataframe digest.  A dataframe is
modelled by its string-rendered index and its named numeric columns;
that is all the digest reads. -/

/-- Zero padding of a positive decimal rendering to width `w`. -/
def padZeros (w : Nat) (n : Nat) : String :=
  let s := toString n
  ⟨List.replicate (w - s.length) '0' ++ s.data⟩

/-- Python `f"{q:.4f}"` on a non-NaN value. -/
def format4 (q : ℚ) : String :=
  let n := roundHalfEven (q * 10000)
  let sign := if q < 0 then "-" else ""
  sign ++ toString (n.natAbs / 10000) ++ "." ++ padZeros 4 (n.natAbs % 10000)

structure DataFrame where
  index : List String
  cols : List (String × List ℚ)
deriving DecidableEq

def DataFrame.nrows (df : DataFrame) : Nat := df.index.length

def DataFrame.ncols (df : DataFrame) : Nat := df.cols.length

/-- pandas `df.empty`: some axis has length zero. -/
def DataFrame.isEmpty (df : DataFrame) : Bool := df.nrows == 0 || df.ncols == 0

def DataFrame.columns (df : DataFrame) : List String := df.cols.map Prod.fst

/-- `df['close'].iloc[-1]` (the code only evaluates it when the
`close` column exists and the frame is non-empty). -/
def DataFrame.lastClose (df : DataFrame) : ℚ :=
  ((df.cols.lookup "close").getD []).getLastD 0

/-- `SmartCache._get_dataframe_hash`. -/
def get_dataframe_hash (md5hex : String → String) (df : Option DataFrame) : String :=
  match df with
  | Option.none => "empty_df"
  | Option.some df =>
    if df.isEmpty then "empty_df"
    else
      let base := ["shape:" ++ toString df.nrows ++ "x" ++ toString df.ncols,
                   "start:" ++ df.index.headD "",
                   "end:" ++ df.index.getLastD ""]
      let comps := if df.columns.contains "close"
        then base ++ ["last_close:" ++ format4 df.lastClose]
        else base
      strTake (md5hex (String.intercalate "_" comps)) 16

/-- The fingerprint formula as the spec words it:
`md5(concat("shape:ROWSxCOLS", "start:T0", "end:TN",
"last_close:X.XXXX"))[:16]`, the components joined with `_`. -/
def fingerprint_spec (md5hex : String → String) (rows ncols : Nat)
    (t0 tn : String) (last_close : ℚ) : String :=
  strTake (md5hex (("shape:" ++ toString rows ++ "x" ++ toString ncols) ++ "_"
    ++ ("start:" ++ t0) ++ "_" ++ ("end:" ++ tn) ++ "_"
    ++ ("last_close:" ++ format4 last_close))) 16

/-- Claim C7: for every non-empty series with a `close` column, the
fingerprint is the first 16 hex characters of the md5 of the four
labelled components, and it depends only on (shape, first timestamp,
last timestamp, last close) — never on object identity or any other
cell of the frame. -/
theorem dataframe_hash_spec (md5hex : String → String) (df df2 : DataFrame)
    (h1 : df.isEmpty = false) (h2 : df.columns.contains "close" = true)
    (h1b : df2.isEmpty = false) (h2b : df2.columns.contains "close" = true)
    (hr : df.nrows = df2.nrows) (hc : df.ncols = df2.ncols)
    (hs : df.index.headD "" = df2.index.headD "")
    (he : df.index.getLastD "" = df2.index.getLastD "")
    (hl : df.lastClose = df2.lastClose) :
    get_dataframe_hash md5hex (Option.some df)
      = fingerprint_spec md5hex df.nrows df.ncols
          (df.index.headD "") (df.index.getLastD "") df.lastClose
    ∧ get_dataframe_hash md5hex (Option.some df)
      = get_dataframe_hash md5hex (Option.some df2) := by
  constructor
  · simp only [get_dataframe_hash, fingerprint_spec, h1, h2, Bool.false_eq_true,
      if_false, if_true, List.cons_append, List.nil_append]
    rfl
  · simp only [get_dataframe_hash, h1, h1b, h2, h2b, Bool.false_eq_true,
      if_false, if_true]
    rw [hr, hc, hs, he, hl]

/-- Witness for C7: two frames with different middle rows and an extra
column's values changed, but identical (shape, first, last, last
close): identical fingerprints, matching the spec formula. -/
theorem dataframe_hash_spec_witness :
    get_dataframe_hash (fun s => s) (Option.some
        ⟨["t0", "t1", "t2"], [("close", [1, 2, 5]), ("open", [1, 1, 1])]⟩)
      = fingerprint_spec (fun s => s) 3 2 "t0" "t2" 5
    ∧ get_dataframe_hash (fun s => s) (Option.some
        ⟨["t0", "t1", "t2"], [("close", [1, 2, 5]), ("open", [1, 1, 1])]⟩)
      = get_dataframe_hash (fun s => s) (Option.some
        ⟨["t0", "u1", "t2"], [("close", [9, 7, 5]), ("open", [2, 2, 2])]⟩) :=
  dataframe_hash_spec (fun s => s)
    ⟨["t0", "t1", "t2"], [("close", [1, 2, 5]), ("open", [1, 1, 1])]⟩
    ⟨["t0", "u1", "t2"], [("close", [9, 7, 5]), ("open", [2, 2, 2])]⟩
    (by decide) (by decide) (by decide) (by decide)
    (by decide) (by decide) (by decide) (by decide) (by decide)

/-! ### smart_cache.SmartCache._generate_key and the public cache keys

`_generate_key` sorts the keyword arguments by name (Python `sorted`
is stable), joins `cache_type` with the `k:v` renderings using `_`,
and hashes the result. -/

/-- Lexicographic string order on code points (Python `str` order for
ASCII strings). -/
def strLeB : List Nat → List Nat → Bool
  | [], _ => true
  | _ :: _, [] => false
  | a :: as, b :: bs => if a < b then true else if b < a then false else strLeB as bs

/-- Stable insertion: an element is placed after every element that
compares `le` to it, as Python's stable `sorted` does. -/
def insertSorted {α : Type} (le : α → α → Bool) (x : α) : List α → List α
  | [] => [x]
  | y :: l => if le y x then y :: insertSorted le x l else x :: y :: l

/-- Stable sort (insertion sort, processing the input left to right). -/
def stableSort {α : Type} (le : α → α → Bool) (l : List α) : List α :=
  l.foldl (fun acc x => insertSorted le x acc) []

/-- Comparison of kwargs items by argument name. -/
def pairLe (a b : String × String) : Bool := strLeB (codes a.1) (codes b.1)

/-- `SmartCache._generate_key` (all values already strings here; the
dataframe case substitutes the fingerprint first, see
`get_dataframe_hash`). -/
def generate_key (md5hex : String → String) (cache_type : String)
    (kwargs : List (String × String)) : String :=
  let sorted := stableSort pairLe kwargs
  md5hex (String.intercalate "_"
    (cache_type :: sorted.map (fun kv => kv.1 ++ ":" ++ kv.2)))

/-- The key consulted by `get_data_cache`/`set_data_cache`. -/
def get_data_cache_key (md5hex : String → String) (symbol interval : String) : String :=
  generate_key md5hex "data" [("symbol", symbol), ("interval", interval)]

/-- The key consulted by `get_chart_cache`/`set_chart_cache`. -/
def get_chart_cache_key (md5hex : String → String)
    (symbol interval data_hash : String) : String :=
  generate_key md5hex "chart"
    [("symbol", symbol), ("interval", interval), ("data_hash", data_hash)]

/-- The key consulted by `get_analysis_cache`/`set_analysis_cache`. -/
def get_analysis_cache_key (md5hex : String → String)
    (symbol data_hash : String) : String :=
  generate_key md5hex "analysis" [("symbol", symbol), ("data_hash", data_hash)]

/-- Claim C8: the Analysis key is the hash of a string built from the
ticker and the data fingerprint only — no interval occurs in it, so
any two cached-analysis lookups with equal ticker and fingerprint use
the same key whatever the intervals were; the Chart key's pre-hash
string embeds the interval, and differs whenever the interval
differs. -/
theorem analysis_key_excludes_interval (md5hex : String → String)
    (s h i1 i2 : String) (hne : i1 ≠ i2) :
    get_analysis_cache_key md5hex s h
      = md5hex ("analysis" ++ "_" ++ ("data_hash:" ++ h) ++ "_" ++ ("symbol:" ++ s))
    ∧ get_chart_cache_key md5hex s i1 h
      = md5hex ("chart" ++ "_" ++ ("data_hash:" ++ h) ++ "_"
          ++ ("interval:" ++ i1) ++ "_" ++ ("symbol:" ++ s))
    ∧ ("chart" ++ "_" ++ ("data_hash:" ++ h) ++ "_"
          ++ ("interval:" ++ i1) ++ "_" ++ ("symbol:" ++ s))
      ≠ ("chart" ++ "_" ++ ("data_hash:" ++ h) ++ "_"
          ++ ("interval:" ++ i2) ++ "_" ++ ("symbol:" ++ s)) := by
  refine ⟨rfl, rfl, ?_⟩
  intro heq
  have hd := congrArg String.data heq
  simp only [String.data_append] at hd
  have h1 := List.append_cancel_right hd
  have h2 := List.append_cancel_right h1
  have h3 := List.append_cancel_left h2
  exact hne (String.ext (List.append_cancel_left h3))

/-- Witness for C8 at concrete ticker, fingerprint and two intervals. -/
theorem analysis_key_excludes_interval_witness :
    get_analysis_cache_key (fun s => s) "AAPL" "abcd1234"
      = (fun s : String => s) ("analysis" ++ "_" ++ ("data_hash:" ++ "abcd1234")
          ++ "_" ++ ("symbol:" ++ "AAPL"))
    ∧ get_chart_cache_key (fun s => s) "AAPL" "1d" "abcd1234"
      = (fun s : String => s) ("chart" ++ "_" ++ ("data_hash:" ++ "abcd1234") ++ "_"
          ++ ("interval:" ++ "1d") ++ "_" ++ ("symbol:" ++ "AAPL"))
    ∧ ("chart" ++ "_" ++ ("data_hash:" ++ "abcd1234") ++ "_"
          ++ ("interval:" ++ "1d") ++ "_" ++ ("symbol:" ++ "AAPL"))
      ≠ ("chart" ++ "_" ++ ("data_hash:" ++ "abcd1234") ++ "_"
          ++ ("interval:" ++ "1h") ++ "_" ++ ("symbol:" ++ "AAPL")) :=
  analysis_key_excludes_interval (fun s => s) "AAPL" "abcd1234" "1d" "1h" (by decide)

/-! ### llm_analyzer.LLMAnalyzer._get_key_data_hash -/

/-- How `_get_key_data_hash` renders one value: skipped when `None`,
`f"{v:.4f}"` for numbers (which prints `nan` for NaN), `f"{v}"`
otherwise. -/
def formatValueForHash : PV → Option String
  | PV.none => Option.none
  | PV.nan => Option.some "nan"
  | PV.num q => Option.some (format4 q)
  | PV.str s => Option.some s

/-- `LLMAnalyzer._get_key_data_hash`: only the six listed fields are
consulted, in this order; `period_high` and `period_low` are not. -/
def key_data_hash (md5hex : String → String) (kd : RawKeyData) : String :=
  let pairs : List (String × PV) :=
    [("latest_close", kd.latest_close), ("bollinger_upper", kd.bollinger_upper),
     ("bollinger_middle", kd.bollinger_middle), ("bollinger_lower", kd.bollinger_lower),
     ("stoch_rsi_k", kd.stoch_rsi_k), ("stoch_rsi_d", kd.stoch_rsi_d)]
  let key_values := pairs.foldr
    (fun kv acc =>
      match formatValueForHash kv.2 with
      | Option.none => acc
      | Option.some s => (kv.1 ++ ":" ++ s) :: acc) []
  strTake (md5hex (String.intercalate "|" key_values)) 16

/-- Claim C10: the analysis-cache data hash is a function of the six
fields latest_close, bollinger_upper/middle/lower, stoch_rsi_k,
stoch_rsi_d only; two snapshots agreeing on those six (but differing
arbitrarily in period_high and period_low) produce the same data hash
and hence the identical analysis cache key. -/
theorem analysis_key_ignores_period_bounds (md5hex : String → String) (ticker : String)
    (k1 k2 : RawKeyData)
    (h1 : k1.latest_close = k2.latest_close)
    (h2 : k1.bollinger_upper = k2.bollinger_upper)
    (h3 : k1.bollinger_middle = k2.bollinger_middle)
    (h4 : k1.bollinger_lower = k2.bollinger_lower)
    (h5 : k1.stoch_rsi_k = k2.stoch_rsi_k)
    (h6 : k1.stoch_rsi_d = k2.stoch_rsi_d) :
    key_data_hash md5hex k1 = key_data_hash md5hex k2
    ∧ get_analysis_cache_key md5hex ticker (key_data_hash md5hex k1)
      = get_analysis_cache_key md5hex ticker (key_data_hash md5hex k2) := by
  have hkey : key_data_hash md5hex k1 = key_data_hash md5hex k2 := by
    simp only [key_data_hash, h1, h2, h3, h4, h5, h6]
  exact ⟨hkey, by rw [hkey]⟩

/-- Witness for C10: two snapshots differing only in period_high and
period_low share the data hash and the cache key. -/
theorem analysis_key_ignores_period_bounds_witness :
    key_data_hash (fun s => s)
        ⟨PV.num 101, PV.num 120, PV.num 90, PV.num 110, PV.num 105,
         PV.num 100, PV.num 71, PV.num 64⟩
      = key_data_hash (fun s => s)
        ⟨PV.num 101, PV.num 500, PV.none, PV.num 110, PV.num 105,
         PV.num 100, PV.num 71, PV.num 64⟩
    ∧ get_analysis_cache_key (fun s => s) "AAPL"
        (key_data_hash (fun s => s)
          ⟨PV.num 101, PV.num 120, PV.num 90, PV.num 110, PV.num 105,
           PV.num 100, PV.num 71, PV.num 64⟩)
      = get_analysis_cache_key (fun s => s) "AAPL"
        (key_data_hash (fun s => s)
          ⟨PV.num 101, PV.num 500, PV.none, PV.num 110, PV.num 105,
           PV.num 100, PV.num 71, PV.num 64⟩) :=
  analysis_key_ignores_period_bounds (fun s => s) "AAPL"
    ⟨PV.num 101, PV.num 120, PV.num 90, PV.num 110, PV.num 105,
     PV.num 100, PV.num 71, PV.num 64⟩
    ⟨PV.num 101, PV.num 500, PV.none, PV.num 110, PV.num 105,
     PV.num 100, PV.num 71, PV.num 64⟩
    rfl rfl rfl rfl rfl rfl

/-! ### smart_cache.SmartCache — two-tier TTL cache state

The memory tier is the `_memory_cache` dict plus the `_access_times`
dict; the disk tier is one file per `(cache_type, key)` with its
mtime.  All dict operations follow CPython semantics: update keeps the
entry's position, insertion appends. -/

inductive Payload where
  | df (d : DataFrame)
  | bytes (b : List Nat)
  | text (s : String)
deriving DecidableEq

structure MemEntry where
  data : Payload
  timestamp : ℤ
  ctype : String
deriving DecidableEq

structure DiskFile where
  data : Payload
  mtime : ℤ
deriving DecidableEq

structure CacheConfig where
  enabled : Bool
  data_ttl : ℤ
  chart_ttl : ℤ
  analysis_ttl : ℤ
  max_memory_entries : Nat
deriving DecidableEq

structure CacheState where
  memory_cache : List (String × MemEntry)
  access_times : List (String × ℤ)
  disk : List ((String × String) × DiskFile)
deriving DecidableEq

/-- Python `d[k] = v`. -/
def dictSet {κ β : Type} [BEq κ] (l : List (κ × β)) (k : κ) (v : β) : List (κ × β) :=
  if l.any (fun p => p.1 == k) then
    l.map (fun p => if p.1 == k then (k, v) else p)
  else l ++ [(k, v)]

/-- Python `d.pop(k, None)` / `del d[k]`. -/
def dictPop {κ β : Type} [BEq κ] (l : List (κ × β)) (k : κ) : List (κ × β) :=
  l.filter (fun p => !(p.1 == k))

/-- `SmartCache._get_ttl_by_type`. -/
def get_ttl_by_type (cfg : CacheConfig) (t : String) : ℤ :=
  if t = "data" then cfg.data_ttl
  else if t = "chart" then cfg.chart_ttl
  else if t = "analysis" then cfg.analysis_ttl
  else 300

/-- `SmartCache._is_expired` (entries always carry a timestamp here). -/
def is_expired (now : ℤ) (e : MemEntry) (ttl : ℤ) : Bool :=
  decide (now - e.timestamp > ttl)

/-- Access-time ordering used by `sorted(self._access_times.items(),
key=lambda x: x[1])`. -/
def pairTimeLe (a b : String × ℤ) : Bool := decide (a.2 ≤ b.2)

/-- `SmartCache._evict_lru`. -/
def evict_lru (cfg : CacheConfig) (st : CacheState) : CacheState :=
  if st.memory_cache.length ≤ cfg.max_memory_entries then st
  else
    let sorted_keys := stableSort pairTimeLe st.access_times
    let num_to_remove := st.memory_cache.length - cfg.max_memory_entries + 100
    let victims := (sorted_keys.take num_to_remove).map Prod.fst
    { st with
      memory_cache := victims.foldl dictPop st.memory_cache,
      access_times := victims.foldl dictPop st.access_times }

/-- `SmartCache._set_to_memory`. -/
def set_to_memory (cfg : CacheConfig) (now : ℤ) (key : String) (data : Payload)
    (ctype : String) (st : CacheState) : CacheState :=
  if cfg.enabled = false then st
  else
    let st1 : CacheState := { st with
      memory_cache := dictSet st.memory_cache key ⟨data, now, ctype⟩,
      access_times := dictSet st.access_times key now }
    if st1.memory_cache.length > cfg.max_memory_entries then evict_lru cfg st1 else st1

/-- `SmartCache._get_from_memory`. -/
def get_from_memory (cfg : CacheConfig) (now : ℤ) (key ctype : String)
    (st : CacheState) : CacheState × Option Payload :=
  if cfg.enabled = false then (st, Option.none)
  else
    match st.memory_cache.lookup key with
    | Option.none => (st, Option.none)
    | Option.some entry =>
      if is_expired now entry (get_ttl_by_type cfg ctype) then
        ({ st with memory_cache := dictPop st.memory_cache key,
                   access_times := dictPop st.access_times key }, Option.none)
      else
        ({ st with access_times := dictSet st.access_times key now },
         Option.some entry.data)

/-- `SmartCache._get_from_disk` (file reads never fail in the model;
the source swallows read errors into a miss). -/
def get_from_disk (cfg : CacheConfig) (now : ℤ) (key ctype : String)
    (st : CacheState) : CacheState × Option Payload :=
  if cfg.enabled = false then (st, Option.none)
  else
    match st.disk.lookup (ctype, key) with
    | Option.none => (st, Option.none)
    | Option.some file =>
      if decide (now - file.mtime > get_ttl_by_type cfg ctype) then
        ({ st with disk := dictPop st.disk (ctype, key) }, Option.none)
      else
        (set_to_memory cfg now key file.data ctype st, Option.some file.data)

/-- `SmartCache._set_to_disk`. -/
def set_to_disk (cfg : CacheConfig) (now : ℤ) (key ctype : String) (data : Payload)
    (st : CacheState) : CacheState :=
  if cfg.enabled = false then st
  else { st with disk := dictSet st.disk (ctype, key) ⟨data, now⟩ }

/-- `SmartCache.get_analysis_cache`. -/
def get_analysis_cache (md5hex : String → String) (cfg : CacheConfig) (now : ℤ)
    (symbol data_hash : String) (st : CacheState) : CacheState × Option Payload :=
  let key := get_analysis_cache_key md5hex symbol data_hash
  match get_from_memory cfg now key "analysis" st with
  | (st1, Option.some d) => (st1, Option.some d)
  | (st1, Option.none) => get_from_disk cfg now key "analysis" st1

/-- `SmartCache.set_analysis_cache` (`if not analysis: return`). -/
def set_analysis_cache (md5hex : String → String) (cfg : CacheConfig) (now : ℤ)
    (symbol data_hash analysis : String) (st : CacheState) : CacheState :=
  if analysis = "" then st
  else
    let key := get_analysis_cache_key md5hex symbol data_hash
    set_to_disk cfg now key "analysis" (Payload.text analysis)
      (set_to_memory cfg now key (Payload.text analysis) "analysis" st)

/-- `SmartCache.set_data_cache` (`if data is None or data.empty: return`). -/
def set_data_cache (md5hex : String → String) (cfg : CacheConfig) (now : ℤ)
    (symbol interval : String) (data : Option DataFrame) (st : CacheState) : CacheState :=
  match data with
  | Option.none => st
  | Option.some df =>
    if df.isEmpty then st
    else
      let key := get_data_cache_key md5hex symbol interval
      set_to_disk cfg now key "data" (Payload.df df)
        (set_to_memory cfg now key (Payload.df df) "data" st)

/-- Python whitespace for `str.strip()` (ASCII). -/
def isPyWs (c : Char) : Bool :=
  c == ' ' || c == '\t' || c == '\n' || c == '\r' || c.toNat == 11 || c.toNat == 12

/-- Python `s.strip()`. -/
def pyStrip (s : String) : String :=
  ⟨((s.data.dropWhile isPyWs).reverse.dropWhile isPyWs).reverse⟩

/-- `LLMAnalyzer.analyze_chart_image_cached`: consult the analysis
cache; on miss call the LLM (its response is the `llm_response`
argument: `None` models both an exception and a `None` return), cache
only a non-empty, non-whitespace response. -/
def analyze_chart_image_cached (md5hex : String → String) (cfg : CacheConfig)
    (now : ℤ) (ticker : String) (kd : RawKeyData) (llm_response : Option String)
    (st : CacheState) : CacheState × Option Payload :=
  let data_hash := key_data_hash md5hex kd
  match get_analysis_cache md5hex cfg now ticker data_hash st with
  | (st1, Option.some cached) => (st1, Option.some cached)
  | (st1, Option.none) =>
    match llm_response with
    | Option.none => (st1, Option.none)
    | Option.some text =>
      if 0 < (pyStrip text).length then
        (set_analysis_cache md5hex cfg now ticker data_hash text st1,
         Option.some (Payload.text text))
      else (st1, Option.none)

theorem dictPop_lookup_none {κ β : Type} [BEq κ] [LawfulBEq κ]
    (l : List (κ × β)) (k : κ) : (dictPop l k).lookup k = Option.none := by
  induction l with
  | nil => rfl
  | cons a t ih =>
    obtain ⟨a1, a2⟩ := a
    by_cases hak : a1 = k
    · have hbeq : (a1 == k) = true := beq_iff_eq.mpr hak
      simp only [dictPop, List.filter_cons, hbeq, Bool.not_true, if_false]
      exact ih
    · have hbeq : (a1 == k) = false := beq_eq_false_iff_ne.mpr hak
      have hbeq2 : (k == a1) = false := beq_eq_false_iff_ne.mpr (Ne.symm hak)
      simp only [dictPop, List.filter_cons, hbeq, Bool.not_false, if_true,
        List.lookup_cons, hbeq2]
      exact ih

/-- Claim C5: per tier, independently — an entry whose age strictly
exceeds its bucket's TTL is, on the next get, reported absent and
deleted in place: a memory-tier entry is removed from both memory
maps, and a disk-tier file is removed from the disk tier, each
regardless of what the other tier holds. -/
theorem cache_get_expired_removes (cfg : CacheConfig) (now : ℤ) (key ctype : String)
    (st : CacheState) (hen : cfg.enabled = true) :
    (∀ entry : MemEntry, st.memory_cache.lookup key = Option.some entry →
      now - entry.timestamp > get_ttl_by_type cfg ctype →
      (get_from_memory cfg now key ctype st).2 = Option.none
      ∧ (get_from_memory cfg now key ctype st).1.memory_cache.lookup key = Option.none
      ∧ (get_from_memory cfg now key ctype st).1.access_times.lookup key = Option.none)
    ∧ (∀ file : DiskFile, st.disk.lookup (ctype, key) = Option.some file →
      now - file.mtime > get_ttl_by_type cfg ctype →
      (get_from_disk cfg now key ctype st).2 = Option.none
      ∧ (get_from_disk cfg now key ctype st).1.disk.lookup (ctype, key)
          = Option.none) := by
  constructor
  · intro entry hmem hexp
    have hexpb : is_expired now entry (get_ttl_by_type cfg ctype) = true := by
      rw [is_expired, decide_eq_true_eq]
      exact hexp
    have hmemo : get_from_memory cfg now key ctype st
        = ({ st with memory_cache := dictPop st.memory_cache key,
                     access_times := dictPop st.access_times key }, Option.none) := by
      simp [get_from_memory, hen, hmem, hexpb]
    refine ⟨?_, ?_, ?_⟩
    · rw [hmemo]
    · rw [hmemo]
      exact dictPop_lookup_none st.memory_cache key
    · rw [hmemo]
      exact dictPop_lookup_none st.access_times key
  · intro file hfile hexp2
    have hexpb2 : decide (now - file.mtime > get_ttl_by_type cfg ctype) = true := by
      rw [decide_eq_true_eq]
      exact hexp2
    have hdisko : get_from_disk cfg now key ctype st
        = ({ st with disk := dictPop st.disk (ctype, key) }, Option.none) := by
      simp [get_from_disk, hen, hfile, hexpb2]
    constructor
    · rw [hdisko]
    · rw [hdisko]
      exact dictPop_lookup_none st.disk (ctype, key)

/-- Witness for C5, one application per tier: an expired memory entry
whose disk copy is absent (e.g. the best-effort disk write failed),
and an expired disk file whose memory copy was already evicted (the
disk-hit-after-memory-miss path). -/
theorem cache_get_expired_removes_witness :
    (get_from_memory ⟨true, 300, 600, 1800, 1000⟩ 1000 "k" "data"
        ⟨[("k", ⟨Payload.text "v", 100, "data"⟩)], [("k", 100)], []⟩).2 = Option.none
    ∧ (get_from_memory ⟨true, 300, 600, 1800, 1000⟩ 1000 "k" "data"
        ⟨[("k", ⟨Payload.text "v", 100, "data"⟩)], [("k", 100)],
         []⟩).1.memory_cache.lookup "k" = Option.none
    ∧ (get_from_memory ⟨true, 300, 600, 1800, 1000⟩ 1000 "k" "data"
        ⟨[("k", ⟨Payload.text "v", 100, "data"⟩)], [("k", 100)],
         []⟩).1.access_times.lookup "k" = Option.none
    ∧ (get_from_disk ⟨true, 300, 600, 1800, 1000⟩ 1000 "k" "data"
        ⟨[], [], [(("data", "k"), ⟨Payload.text "v", 100⟩)]⟩).2 = Option.none
    ∧ (get_from_disk ⟨true, 300, 600, 1800, 1000⟩ 1000 "k" "data"
        ⟨[], [], [(("data", "k"), ⟨Payload.text "v", 100⟩)]⟩).1.disk.lookup
        ("data", "k") = Option.none := by
  have hm := (cache_get_expired_removes ⟨true, 300, 600, 1800, 1000⟩ 1000 "k" "data"
    ⟨[("k", ⟨Payload.text "v", 100, "data"⟩)], [("k", 100)], []⟩ rfl).1
    ⟨Payload.text "v", 100, "data"⟩ (by decide) (by decide)
  have hd := (cache_get_expired_removes ⟨true, 300, 600, 1800, 1000⟩ 1000 "k" "data"
    ⟨[], [], [(("data", "k"), ⟨Payload.text "v", 100⟩)]⟩ rfl).2
    ⟨Payload.text "v", 100⟩ (by decide) (by decide)
  exact ⟨hm.1, hm.2.1, hm.2.2, hd.1, hd.2⟩

/-- Claim C6: empty results are never cached — a Data-bucket set with
`None` or an empty frame writes nothing, an Analysis-bucket set with
the empty string writes nothing, and on an analysis-cache miss the
cached analyze stage caches nothing and reports failure when the LLM
returns `None` or a whitespace-only string. -/
theorem empty_results_never_cached (md5hex : String → String) (cfg : CacheConfig)
    (now : ℤ) (symbol interval dh ticker : String) (kd : RawKeyData)
    (st st1 : CacheState) :
    set_data_cache md5hex cfg now symbol interval Option.none st = st
    ∧ (∀ df : DataFrame, df.isEmpty = true →
        set_data_cache md5hex cfg now symbol interval (Option.some df) st = st)
    ∧ set_analysis_cache md5hex cfg now symbol dh "" st = st
    ∧ (get_analysis_cache md5hex cfg now ticker (key_data_hash md5hex kd) st
          = (st1, Option.none) →
        analyze_chart_image_cached md5hex cfg now ticker kd Option.none st
          = (st1, Option.none)
        ∧ (∀ text, pyStrip text = "" →
            analyze_chart_image_cached md5hex cfg now ticker kd (Option.some text) st
              = (st1, Option.none))) := by
  refine ⟨rfl, ?_, ?_, ?_⟩
  · intro df hdf
    simp [set_data_cache, hdf]
  · simp [set_analysis_cache]
  · intro hget
    constructor
    · simp [analyze_chart_image_cached, hget]
    · intro text htext
      simp [analyze_chart_image_cached, hget, htext]

/-- Witness for C6 on a concrete empty cache state: a `None` set, an
empty-frame set, an empty-string set, a `None` LLM response and a
whitespace-only LLM response all leave the state unchanged. -/
theorem empty_results_never_cached_witness :
    set_data_cache (fun s => s) ⟨true, 300, 600, 1800, 1000⟩ 7 "AAPL" "1d"
        Option.none ⟨[], [], []⟩ = ⟨[], [], []⟩
    ∧ set_data_cache (fun s => s) ⟨true, 300, 600, 1800, 1000⟩ 7 "AAPL" "1d"
        (Option.some ⟨[], [("close", [])]⟩) ⟨[], [], []⟩ = ⟨[], [], []⟩
    ∧ set_analysis_cache (fun s => s) ⟨true, 300, 600, 1800, 1000⟩ 7 "AAPL" "h" ""
        ⟨[], [], []⟩ = ⟨[], [], []⟩
    ∧ analyze_chart_image_cached (fun s => s) ⟨true, 300, 600, 1800, 1000⟩ 7 "AAPL"
        ⟨PV.none, PV.none, PV.none, PV.none, PV.none, PV.none, PV.none, PV.none⟩
        Option.none ⟨[], [], []⟩ = (⟨[], [], []⟩, Option.none)
    ∧ analyze_chart_image_cached (fun s => s) ⟨true, 300, 600, 1800, 1000⟩ 7 "AAPL"
        ⟨PV.none, PV.none, PV.none, PV.none, PV.none, PV.none, PV.none, PV.none⟩
        (Option.some "  ") ⟨[], [], []⟩ = (⟨[], [], []⟩, Option.none) := by
  have h := empty_results_never_cached (fun s => s) ⟨true, 300, 600, 1800, 1000⟩ 7
    "AAPL" "1d" "h" "AAPL"
    ⟨PV.none, PV.none, PV.none, PV.none, PV.none, PV.none, PV.none, PV.none⟩
    ⟨[], [], []⟩ ⟨[], [], []⟩
  exact ⟨h.1, h.2.1 ⟨[], [("close", [])]⟩ (by decide), h.2.2.1,
    (h.2.2.2 rfl).1, (h.2.2.2 rfl).2 "  " (by decide)⟩

/-! ### performance_monitor.PerformanceMonitor.track_request -/

structure SessionStats where
  total_requests : Nat
  successful_requests : Nat
  failed_requests : Nat
  average_response_time : ℚ
deriving DecidableEq

/-- `PerformanceMonitor.track_request`: bump the totals and recompute
the running mean `(avg * (n - 1) + duration) / n` with `n` the new
total. -/
def track_request (success : Bool) (total_duration : ℚ) (s : SessionStats) :
    SessionStats :=
  let total := s.total_requests + 1
  { total_requests := total,
    successful_requests := s.successful_requests + (if success then 1 else 0),
    failed_requests := s.failed_requests + (if success then 0 else 1),
    average_response_time :=
      (s.average_response_time * ((total : ℚ) - 1) + total_duration) / (total : ℚ) }

/-- Claim C9: each `track_request` call raises `total_requests` by
exactly 1, increments exactly one of the success/failure counters
(preserving `successful + failed = total`), and the new average
satisfies `new_avg * n = old_avg * (n - 1) + duration` for the new
total `n` — i.e. it is the weighted running mean. -/
theorem track_request_stats (s : SessionStats) (success : Bool) (d : ℚ)
    (hinv : s.successful_requests + s.failed_requests = s.total_requests) :
    (track_request success d s).total_requests = s.total_requests + 1
    ∧ (success = true →
        (track_request success d s).successful_requests = s.successful_requests + 1
        ∧ (track_request success d s).failed_requests = s.failed_requests)
    ∧ (success = false →
        (track_request success d s).failed_requests = s.failed_requests + 1
        ∧ (track_request success d s).successful_requests = s.successful_requests)
    ∧ (track_request success d s).successful_requests
        + (track_request success d s).failed_requests
        = (track_request success d s).total_requests
    ∧ (track_request success d s).average_response_time
        * ((s.total_requests : ℚ) + 1)
      = s.average_response_time * (s.total_requests : ℚ) + d := by
  have hne : ((s.total_requests + 1 : Nat) : ℚ) ≠ 0 := by
    push_cast
    positivity
  refine ⟨rfl, ?_, ?_, ?_, ?_⟩
  · intro hs
    rw [track_request]
    simp [hs]
  · intro hs
    rw [track_request]
    simp [hs]
  · cases success <;> simp [track_request] <;> omega
  · have hcast : ((s.total_requests + 1 : Nat) : ℚ) = (s.total_requests : ℚ) + 1 := by
      push_cast
      ring
    have hne2 : (s.total_requests : ℚ) + 1 ≠ 0 := by positivity
    show (s.average_response_time * (((s.total_requests + 1 : Nat) : ℚ) - 1) + d)
        / ((s.total_requests + 1 : Nat) : ℚ) * ((s.total_requests : ℚ) + 1)
      = s.average_response_time * (s.total_requests : ℚ) + d
    rw [hcast]
    field_simp
    try ring

/-- Witness for C9 at a concrete session state. -/
theorem track_request_stats_witness :
    (track_request true 2 ⟨3, 2, 1, 5⟩).total_requests = 3 + 1
    ∧ (true = true →
        (track_request true 2 ⟨3, 2, 1, 5⟩).successful_requests = 2 + 1
        ∧ (track_request true 2 ⟨3, 2, 1, 5⟩).failed_requests = 1)
    ∧ (true = false →
        (track_request true 2 ⟨3, 2, 1, 5⟩).failed_requests = 1 + 1
        ∧ (track_request true 2 ⟨3, 2, 1, 5⟩).successful_requests = 2)
    ∧ (track_request true 2 ⟨3, 2, 1, 5⟩).successful_requests
        + (track_request true 2 ⟨3, 2, 1, 5⟩).failed_requests
        = (track_request true 2 ⟨3, 2, 1, 5⟩).total_requests
    ∧ (track_request true 2 ⟨3, 2, 1, 5⟩).average_response_time * ((3 : ℚ) + 1)
      = 5 * (3 : ℚ) + 2 :=
  track_request_stats ⟨3, 2, 1, 5⟩ true 2 (by decide)

/-! ### Properties of the stable sort and of the dict operations,
needed for the LRU eviction claim. -/

theorem insertSorted_perm {α : Type} (le : α → α → Bool) (x : α) :
    ∀ l : List α, (insertSorted le x l).Perm (x :: l) := by
  intro l
  induction l with
  | nil => exact List.Perm.refl _
  | cons y t ih =>
    rw [insertSorted]
    by_cases hle : le y x = true
    · rw [if_pos hle]
      exact (ih.cons y).trans (List.Perm.swap x y t)
    · rw [if_neg hle]

theorem stableSort_perm {α : Type} (le : α → α → Bool) (l : List α) :
    (stableSort le l).Perm l := by
  have aux : ∀ (l acc : List α),
      (l.foldl (fun a x => insertSorted le x a) acc).Perm (acc ++ l) := by
    intro l
    induction l with
    | nil => intro acc; simp
    | cons x t ih =>
      intro acc
      rw [List.foldl_cons]
      refine (ih (insertSorted le x acc)).trans ?_
      refine (List.Perm.append_right t (insertSorted_perm le x acc)).trans ?_
      exact (List.perm_middle).symm.trans (List.Perm.refl _) |>.symm.symm
  simpa using aux l []

theorem insertSorted_mem {α : Type} (le : α → α → Bool) (x a : α) (l : List α) :
    a ∈ insertSorted le x l ↔ a = x ∨ a ∈ l := by
  rw [(insertSorted_perm le x l).mem_iff, List.mem_cons]

theorem insertSorted_pairwise {α : Type} (le : α → α → Bool)
    (htrans : ∀ a b c, le a b = true → le b c = true → le a c = true)
    (htot : ∀ a b, le a b = true ∨ le b a = true)
    (x : α) (l : List α) (hs : List.Pairwise (fun a b => le a b = true) l) :
    List.Pairwise (fun a b => le a b = true) (insertSorted le x l) := by
  induction l with
  | nil => exact List.pairwise_singleton _ x
  | cons y t ih =>
    rw [List.pairwise_cons] at hs
    obtain ⟨hy, ht⟩ := hs
    rw [insertSorted]
    by_cases hle : le y x = true
    · rw [if_pos hle, List.pairwise_cons]
      refine ⟨?_, ih ht⟩
      intro b hb
      rcases (insertSorted_mem le x b t).mp hb with hbx | hbt
      · rw [hbx]
        exact hle
      · exact hy b hbt
    · rw [if_neg hle, List.pairwise_cons]
      have hxy : le x y = true := by
        rcases htot x y with h | h
        · exact h
        · exact absurd h hle
      refine ⟨?_, List.pairwise_cons.mpr ⟨hy, ht⟩⟩
      intro b hb
      rcases List.mem_cons.mp hb with hby | hbt
      · rw [hby]
        exact hxy
      · exact htrans x y b hxy (hy b hbt)

theorem stableSort_pairwise {α : Type} (le : α → α → Bool)
    (htrans : ∀ a b c, le a b = true → le b c = true → le a c = true)
    (htot : ∀ a b, le a b = true ∨ le b a = true)
    (l : List α) :
    List.Pairwise (fun a b => le a b = true) (stableSort le l) := by
  have aux : ∀ (l acc : List α), List.Pairwise (fun a b => le a b = true) acc →
      List.Pairwise (fun a b => le a b = true)
        (l.foldl (fun a x => insertSorted le x a) acc) := by
    intro l
    induction l with
    | nil => exact fun acc h => h
    | cons x t ih =>
      intro acc hacc
      rw [List.foldl_cons]
      exact ih (insertSorted le x acc) (insertSorted_pairwise le htrans htot x acc hacc)
  exact aux l [] (List.Pairwise.nil)

theorem dict_hasKey_iff {β : Type} (l : List (String × β)) (k : String) :
    (l.any (fun p => p.1 == k)) = true ↔ k ∈ l.map Prod.fst := by
  rw [List.any_eq_true]
  constructor
  · rintro ⟨p, hp, hbeq⟩
    exact List.mem_map.mpr ⟨p, hp, beq_iff_eq.mp hbeq⟩
  · intro hm
    obtain ⟨p, hp, hfst⟩ := List.mem_map.mp hm
    exact ⟨p, hp, beq_iff_eq.mpr hfst⟩

theorem dictSet_keys_update {β : Type} (l : List (String × β)) (k : String) (v : β)
    (h : (l.any (fun p => p.1 == k)) = true) :
    (dictSet l k v).map Prod.fst = l.map Prod.fst := by
  rw [dictSet, if_pos h, List.map_map]
  apply List.map_congr_left
  intro p hp
  by_cases hpk : (p.1 == k) = true
  · simp only [Function.comp_apply, hpk, if_true]
    exact (beq_iff_eq.mp hpk).symm
  · simp only [Function.comp_apply, hpk]
    simp

theorem dictSet_keys_insert {β : Type} (l : List (String × β)) (k : String) (v : β)
    (h : (l.any (fun p => p.1 == k)) = false) :
    (dictSet l k v).map Prod.fst = l.map Prod.fst ++ [k] := by
  rw [dictSet, if_neg (by rw [h]; exact Bool.false_ne_true), List.map_append]
  rfl

theorem foldl_dictPop_eq_filter {β : Type} (vs : List String) :
    ∀ l : List (String × β), vs.foldl dictPop l
      = l.filter (fun p => !(vs.contains p.1)) := by
  induction vs with
  | nil =>
    intro l
    simp [List.contains]
  | cons v vs ih =>
    intro l
    rw [List.foldl_cons, ih (dictPop l v), dictPop, List.filter_filter]
    apply List.filter_congr
    intro p _
    cases hx : (p.1 == v)
    · simp only [List.contains, List.elem_cons, hx]
      simp
    · simp only [List.contains, List.elem_cons, hx]
      simp

theorem countP_contains_of_sub (vs ks : List String) (hvs : vs.Nodup)
    (hk : ks.Nodup) (hsub : ∀ v ∈ vs, v ∈ ks) :
    ks.countP (fun x => vs.contains x) = vs.length := by
  have hperm : (ks.filter (fun x => vs.contains x)).Perm vs := by
    apply List.perm_of_nodup_nodup_toFinset_eq (hk.filter _) hvs
    ext x
    simp only [List.mem_toFinset, List.mem_filter]
    constructor
    · rintro ⟨-, hc⟩
      exact List.elem_iff.mp hc
    · intro hx
      exact ⟨hsub x hx, List.elem_iff.mpr hx⟩
  rw [List.countP_eq_length_filter]
  exact hperm.length_eq

theorem pairTimeLe_trans : ∀ a b c : String × ℤ,
    pairTimeLe a b = true → pairTimeLe b c = true → pairTimeLe a c = true := by
  intro a b c hab hbc
  simp only [pairTimeLe, decide_eq_true_eq] at *
  exact le_trans hab hbc

theorem pairTimeLe_total : ∀ a b : String × ℤ,
    pairTimeLe a b = true ∨ pairTimeLe b a = true := by
  intro a b
  simp only [pairTimeLe, decide_eq_true_eq]
  exact le_total a.2 b.2

/-- Claim C4 (amended): assuming the two memory maps are over the same
key set with no duplicates and the memory tier is within its bound,
(1) after any `set` the memory tier still has at most
`max_memory_entries` entries, and (2) when the cache is enabled,
`max_memory_entries ≥ 100`, and the insertion pushes the size above
the bound, exactly `size - max + 100` keys with the oldest last-access
times are removed from both the entry map and the last-access map
(when `max < 100` the code instead clears as many entries as exist,
fewer than `size - max + 100`; see the counterexample). -/
theorem memory_set_bounded_lru (cfg : CacheConfig) (now : ℤ) (key : String)
    (data : Payload) (ctype : String) (st : CacheState)
    (hkeys : (st.memory_cache.map Prod.fst).Perm (st.access_times.map Prod.fst))
    (hnd : (st.access_times.map Prod.fst).Nodup)
    (hsize : st.memory_cache.length ≤ cfg.max_memory_entries) :
    (set_to_memory cfg now key data ctype st).memory_cache.length
        ≤ cfg.max_memory_entries
    ∧ (cfg.enabled = true → 100 ≤ cfg.max_memory_entries →
        cfg.max_memory_entries < (dictSet st.memory_cache key ⟨data, now, ctype⟩).length →
        ∃ victims : List String,
          victims.length
              = (dictSet st.memory_cache key ⟨data, now, ctype⟩).length
                  - cfg.max_memory_entries + 100
          ∧ victims.Nodup
          ∧ (∀ v ∈ victims, v ∈ (dictSet st.access_times key now).map Prod.fst)
          ∧ (set_to_memory cfg now key data ctype st).memory_cache
              = (dictSet st.memory_cache key ⟨data, now, ctype⟩).filter
                  (fun p => !(victims.contains p.1))
          ∧ (set_to_memory cfg now key data ctype st).access_times
              = (dictSet st.access_times key now).filter
                  (fun p => !(victims.contains p.1))
          ∧ (∀ v ∈ victims, ∀ tv : ℤ, (v, tv) ∈ dictSet st.access_times key now →
              ∀ p ∈ dictSet st.access_times key now,
                (!(victims.contains p.1)) = true → tv ≤ p.2)) := by
  by_cases hen : cfg.enabled = false
  · constructor
    · rw [set_to_memory, if_pos hen]
      exact hsize
    · intro htrue
      rw [htrue] at hen
      exact absurd hen (by decide)
  · -- cache enabled: the real work
    set e : MemEntry := ⟨data, now, ctype⟩ with he
    set mem1 := dictSet st.memory_cache key e with hmem1
    set acc1 := dictSet st.access_times key now with hacc1
    set st1 : CacheState := { st with memory_cache := mem1, access_times := acc1 }
      with hst1
    have hset : set_to_memory cfg now key data ctype st
        = if cfg.max_memory_entries < mem1.length then evict_lru cfg st1 else st1 := by
      rw [set_to_memory, if_neg hen]
    have hiff : (st.memory_cache.any (fun p => p.1 == key)) = true
        ↔ (st.access_times.any (fun p => p.1 == key)) = true :=
      (dict_hasKey_iff st.memory_cache key).trans
        (hkeys.mem_iff.trans (dict_hasKey_iff st.access_times key).symm)
    have hk1 : (mem1.map Prod.fst).Perm (acc1.map Prod.fst) := by
      by_cases hmany : (st.memory_cache.any (fun p => p.1 == key)) = true
      · rw [hmem1, hacc1, dictSet_keys_update _ _ _ hmany,
          dictSet_keys_update _ _ _ (hiff.mp hmany)]
        exact hkeys
      · have hm : (st.memory_cache.any (fun p => p.1 == key)) = false :=
          eq_false_of_ne_true hmany
        have ha : (st.access_times.any (fun p => p.1 == key)) = false := by
          by_cases h2 : (st.access_times.any (fun p => p.1 == key)) = true
          · exact absurd (hiff.mpr h2) hmany
          · exact eq_false_of_ne_true h2
        rw [hmem1, hacc1, dictSet_keys_insert _ _ _ hm, dictSet_keys_insert _ _ _ ha]
        exact hkeys.append_right [key]
    have hnd1 : (acc1.map Prod.fst).Nodup := by
      by_cases hany : (st.access_times.any (fun p => p.1 == key)) = true
      · rw [hacc1, dictSet_keys_update _ _ _ hany]
        exact hnd
      · have ha : (st.access_times.any (fun p => p.1 == key)) = false :=
          eq_false_of_ne_true hany
        rw [hacc1, dictSet_keys_insert _ _ _ ha, List.nodup_append]
        refine ⟨hnd, List.nodup_singleton key, ?_⟩
        intro a hak hamem
        rw [List.mem_singleton] at hamem
        rw [hamem] at hak
        exact hany ((dict_hasKey_iff st.access_times key).mpr hak)
    have hnd1m : (mem1.map Prod.fst).Nodup := (hk1.nodup_iff).mpr hnd1
    have hlen_eq : mem1.length = acc1.length := by
      have hl := hk1.length_eq
      rwa [List.length_map, List.length_map] at hl
    set sorted := stableSort pairTimeLe acc1 with hsorted
    have hsperm : sorted.Perm acc1 := stableSort_perm _ _
    set num := mem1.length - cfg.max_memory_entries + 100 with hnum
    set victims := (sorted.take num).map Prod.fst with hvictims
    have hskeys_perm : (sorted.map Prod.fst).Perm (acc1.map Prod.fst) :=
      hsperm.map Prod.fst
    have hskeys_nd : (sorted.map Prod.fst).Nodup := hskeys_perm.nodup_iff.mpr hnd1
    have hvnodup : victims.Nodup := by
      rw [hvictims, List.map_take]
      exact (List.take_sublist num (sorted.map Prod.fst)).nodup hskeys_nd
    have hvsub : ∀ v ∈ victims, v ∈ acc1.map Prod.fst := by
      intro v hv
      rw [hvictims] at hv
      obtain ⟨p, hp, hfst⟩ := List.mem_map.mp hv
      have hps : p ∈ sorted := (List.take_sublist num sorted).mem hp
      exact hfst ▸ List.mem_map.mpr ⟨p, hsperm.mem_iff.mp hps, rfl⟩
    have hvlen : victims.length = min num acc1.length := by
      rw [hvictims, List.length_map, List.length_take, hsperm.length_eq]
    have hvsubm : ∀ v ∈ victims, v ∈ mem1.map Prod.fst := by
      intro v hv
      exact hk1.mem_iff.mpr (hvsub v hv)
    have hcount : mem1.countP (fun p => victims.contains p.1) = victims.length := by
      have h1 : mem1.countP (fun p => victims.contains p.1)
          = (mem1.map Prod.fst).countP (fun x => victims.contains x) := by
        rw [List.countP_map]
        rfl
      rw [h1, hk1.countP_eq]
      exact countP_contains_of_sub victims (acc1.map Prod.fst) hvnodup hnd1 hvsub
    have hcount2 : acc1.countP (fun p => victims.contains p.1) = victims.length := by
      have h1 : acc1.countP (fun p => victims.contains p.1)
          = (acc1.map Prod.fst).countP (fun x => victims.contains x) := by
        rw [List.countP_map]
        rfl
      rw [h1]
      exact countP_contains_of_sub victims (acc1.map Prod.fst) hvnodup hnd1 hvsub
    have hfilterlen : (mem1.filter (fun p => !(victims.contains p.1))).length
        = mem1.length - victims.length := by
      have htotal := List.length_eq_countP_add_countP
        (fun p : String × MemEntry => victims.contains p.1) mem1
      have hflen : (mem1.filter (fun p => !(victims.contains p.1))).length
          = mem1.countP (fun p => !(victims.contains p.1)) :=
        (List.countP_eq_length_filter _ _).symm
      have hcongr : mem1.countP (fun p => !(victims.contains p.1))
          = mem1.countP (fun p => decide ¬(victims.contains p.1 = true)) := by
        apply List.countP_congr
        intro a _
        cases victims.contains a.1 <;> simp
      rw [hflen, hcongr]
      omega
    have hevict : cfg.max_memory_entries < mem1.length →
        evict_lru cfg st1
          = { st with
              memory_cache := mem1.filter (fun p => !(victims.contains p.1)),
              access_times := acc1.filter (fun p => !(victims.contains p.1)) } := by
      intro hgt
      rw [evict_lru]
      rw [if_neg (not_le.mpr hgt)]
      show ({ st1 with
        memory_cache := victims.foldl dictPop st1.memory_cache,
        access_times := victims.foldl dictPop st1.access_times } : CacheState) = _
      rw [foldl_dictPop_eq_filter, foldl_dictPop_eq_filter]
    constructor
    · -- part 1: bounded after every set
      rw [hset]
      by_cases hgt : cfg.max_memory_entries < mem1.length
      · rw [if_pos hgt, hevict hgt]
        show (mem1.filter (fun p => !(victims.contains p.1))).length
          ≤ cfg.max_memory_entries
        rw [hfilterlen, hvlen]
        omega
      · rw [if_neg hgt]
        show mem1.length ≤ cfg.max_memory_entries
        omega
    · -- part 2: exact LRU eviction when max ≥ 100
      intro _ hmax hgt
      refine ⟨victims, ?_, hvnodup, hvsub, ?_, ?_, ?_⟩
      · rw [hvlen]
        omega
      · rw [hset, if_pos hgt, hevict hgt]
      · rw [hset, if_pos hgt, hevict hgt]
      · intro v hv tv hvtv p hp hpnc
        have hsplit := List.take_append_drop num sorted
        have hp_s : p ∈ sorted := hsperm.mem_iff.mpr hp
        have hvt_s : (v, tv) ∈ sorted := hsperm.mem_iff.mpr hvtv
        have hp_sides := List.mem_append.mp (by rw [hsplit]; exact hp_s :
          p ∈ sorted.take num ++ sorted.drop num)
        have hvt_sides := List.mem_append.mp (by rw [hsplit]; exact hvt_s :
          (v, tv) ∈ sorted.take num ++ sorted.drop num)
        rcases hp_sides with hptake | hpdrop
        · exfalso
          have hmemv : p.1 ∈ victims := by
            rw [hvictims]
            exact List.mem_map.mpr ⟨p, hptake, rfl⟩
          have : victims.contains p.1 = true := List.elem_iff.mpr hmemv
          rw [this] at hpnc
          exact absurd hpnc (by decide)
        rcases hvt_sides with hvttake | hvtdrop
        · have hpw := stableSort_pairwise pairTimeLe pairTimeLe_trans
            pairTimeLe_total acc1
          rw [← hsorted, ← hsplit] at hpw
          have hle := (List.pairwise_append.mp hpw).2.2 (v, tv) hvttake p hpdrop
          simpa [pairTimeLe, decide_eq_true_eq] using hle
        · exfalso
          have hkeysplit : sorted.map Prod.fst
              = (sorted.take num).map Prod.fst ++ (sorted.drop num).map Prod.fst := by
            rw [← List.map_append, hsplit]
          have hnds := hskeys_nd
          rw [hkeysplit, List.nodup_append] at hnds
          have hv2 : v ∈ (sorted.take num).map Prod.fst := by
            rw [← hvictims]
            exact hv
          exact hnds.2.2 hv2 (List.mem_map.mpr ⟨(v, tv), hvtdrop, rfl⟩)

/-- Claim C4 counterexample: with `max_memory_entries = 0` (any value
below 100 behaves alike), inserting into an empty cache makes the size
1 > 0, and the claimed removal count is `1 - 0 + 100 = 101`; but only
the single existing entry is removed (the memory tier ends empty), so
exactly `size - max + 100` entries are NOT removed. -/
theorem lru_eviction_counterexample :
    (dictSet (([] : List (String × MemEntry))) "k"
        ⟨Payload.text "x", 5, "data"⟩).length = 1
    ∧ (0 : Nat) < 1
    ∧ 1 - 0 + 100 = 101
    ∧ (set_to_memory ⟨true, 300, 600, 1800, 0⟩ 5 "k" (Payload.text "x") "data"
        ⟨[], [], []⟩).memory_cache = []
    ∧ (set_to_memory ⟨true, 300, 600, 1800, 0⟩ 5 "k" (Payload.text "x") "data"
        ⟨[], [], []⟩).access_times = []
    ∧ 1 - 0 ≠ 101 := by decide

/-- Concrete 100-entry memory tier for the C4 witness: keys are the
decimal renderings of 0..99, last-access times equal to the index. -/
def lruWitnessState : CacheState :=
  ⟨(List.range 100).map
      (fun i => (toString i, ⟨Payload.text "v", (i : ℤ), "data"⟩)),
   (List.range 100).map (fun i => (toString i, (i : ℤ))), []⟩

def lruWitnessCfg : CacheConfig := ⟨true, 300, 600, 1800, 100⟩

/-- Witness for C4: a full tier of 100 entries plus one insertion
triggers the eviction with all hypotheses discharged concretely. -/
theorem memory_set_bounded_lru_witness :
    (set_to_memory lruWitnessCfg 100 "new" (Payload.text "v") "data"
        lruWitnessState).memory_cache.length ≤ lruWitnessCfg.max_memory_entries
    ∧ ∃ victims : List String,
        victims.length
            = (dictSet lruWitnessState.memory_cache "new"
                ⟨Payload.text "v", 100, "data"⟩).length
                - lruWitnessCfg.max_memory_entries + 100
        ∧ victims.Nodup
        ∧ (∀ v ∈ victims,
            v ∈ (dictSet lruWitnessState.access_times "new" (100 : ℤ)).map Prod.fst)
        ∧ (set_to_memory lruWitnessCfg 100 "new" (Payload.text "v") "data"
              lruWitnessState).memory_cache
            = (dictSet lruWitnessState.memory_cache "new"
                ⟨Payload.text "v", 100, "data"⟩).filter
                (fun p => !(victims.contains p.1))
        ∧ (set_to_memory lruWitnessCfg 100 "new" (Payload.text "v") "data"
              lruWitnessState).access_times
            = (dictSet lruWitnessState.access_times "new" (100 : ℤ)).filter
                (fun p => !(victims.contains p.1))
        ∧ (∀ v ∈ victims, ∀ tv : ℤ,
            (v, tv) ∈ dictSet lruWitnessState.access_times "new" (100 : ℤ) →
            ∀ p ∈ dictSet lruWitnessState.access_times "new" (100 : ℤ),
              (!(victims.contains p.1)) = true → tv ≤ p.2) := by
  have hkeq : lruWitnessState.memory_cache.map Prod.fst
      = lruWitnessState.access_times.map Prod.fst := by
    simp [lruWitnessState, List.map_map]
  have h := memory_set_bounded_lru lruWitnessCfg 100 "new" (Payload.text "v") "data"
    lruWitnessState (hkeq ▸ List.Perm.refl _) (by decide) (by decide)
  exact ⟨h.1, h.2 rfl (by decide) (by decide)⟩
